import Mathlib

/-!
Verification of the slack-mcp-server provider layer and text extraction
against its natural-language specification.

The Go source is shallowly embedded: Go maps become functions
`String → Option α` with overwrite-on-insert semantics, Go slices become
`List`, Go `int` becomes `Int`, and the stateful refresh/fetch paths become
explicit state-passing functions over a snapshot-read model and a page-server
model.  Every definition mirrors the corresponding Go function; the theorems
below settle the frozen specification claims.
-/

namespace SlackMCP

/-- Go `map[string]V` with comma-ok lookup, embedded as a partial function. -/
def SMap (α : Type) : Type := String → Option α

/-- Go map assignment `m[k] = v` (overwrites any previous binding). -/
def SMap.insert {α : Type} (m : SMap α) (k : String) (v : α) : SMap α :=
  fun q => if q = k then some v else m q

/-- The empty Go map. -/
def SMap.empty {α : Type} : SMap α := fun _ => none

/-- Go `unicode.IsControl`: the Cc category, U+0000..U+001F and U+007F..U+009F. -/
def goIsControl (r : Char) : Bool :=
  r.toNat < 0x20 || (0x7F ≤ r.toNat && r.toNat ≤ 0x9F)

/-- Character class removed by `normalizeString` (zero-width characters,
BOM, and control characters). -/
def isInvisibleChar (r : Char) : Bool :=
  r = '\u200B' || r = '\u200C' || r = '\u200D' || r = '\uFEFF' || goIsControl r

/-- `normalizeString` from the provider: `strings.Map` dropping invisible
characters. -/
def normalizeString (s : String) : String :=
  String.mk (s.data.filter (fun r => !(isInvisibleChar r)))

/-- The fields of `slack.User` that the provider reads (`ID`, `Name`,
`RealName`, `Profile.DisplayName`, `Profile.Email`). -/
structure SlackUser where
  id : String
  name : String
  realName : String
  displayName : String
  email : String
deriving DecidableEq

/-- The provider's `Channel` record. -/
structure Channel where
  id : String
  name : String
  topic : String
  purpose : String
  memberCount : Int
  isMpIM : Bool
  isIM : Bool
  isPrivate : Bool
  user : String
  members : List String
deriving DecidableEq

/-- The peer-resolution step at the head of `mapChannel`'s IM branch:
`userID := user`; if that is empty, scan `members` and take the first
member ID present in the users map (else stay empty). -/
def resolveDMPeer (user : String) (members : List String)
    (usersMap : SMap SlackUser) : String :=
  if user = "" then
    match members.find? (fun m => (usersMap m).isSome) with
    | some m => m
    | none => ""
  else user

/-- The per-member name used in the group-DM purpose: the member's
`RealName` when the member ID resolves in the users map, else the raw ID. -/
def dmMemberName (usersMap : SMap SlackUser) (uid : String) : String :=
  match usersMap uid with
  | some u => u.realName
  | none => uid

/-- `mapChannel` from the provider: derives the display name, purpose, topic
and effective member count of a conversation from its raw attributes, member
list, category flags and the users map. -/
def mapChannel (id name nameNormalized topic purpose user : String)
    (members : List String) (numMembers : Int)
    (isIM isMpIM isPrivate : Bool) (usersMap : SMap SlackUser) : Channel :=
  if isIM then
    match usersMap (resolveDMPeer user members usersMap) with
    | some u =>
        { id := id, name := "@" ++ u.name, topic := "",
          purpose := "DM with " ++ u.realName, memberCount := 2,
          isMpIM := isMpIM, isIM := isIM, isPrivate := isPrivate,
          user := resolveDMPeer user members usersMap, members := members }
    | none =>
        if resolveDMPeer user members usersMap ≠ "" then
          { id := id, name := "@" ++ resolveDMPeer user members usersMap,
            topic := "",
            purpose := "DM with " ++ resolveDMPeer user members usersMap,
            memberCount := 2,
            isMpIM := isMpIM, isIM := isIM, isPrivate := isPrivate,
            user := resolveDMPeer user members usersMap, members := members }
        else
          { id := id, name := "@", topic := "",
            purpose := "DM with ", memberCount := 2,
            isMpIM := isMpIM, isIM := isIM, isPrivate := isPrivate,
            user := resolveDMPeer user members usersMap, members := members }
  else if isMpIM then
    if members ≠ [] then
      { id := id, name := "@" ++ nameNormalized, topic := "",
        purpose := "Group DM with " ++
          String.intercalate ", " (members.map (dmMemberName usersMap)),
        memberCount := (members.length : Int),
        isMpIM := isMpIM, isIM := isIM, isPrivate := isPrivate,
        user := "", members := members }
    else
      { id := id, name := name, topic := topic, purpose := purpose,
        memberCount := numMembers,
        isMpIM := isMpIM, isIM := isIM, isPrivate := isPrivate,
        user := "", members := members }
  else
    { id := id, name := "#" ++ nameNormalized, topic := topic,
      purpose := purpose, memberCount := numMembers,
      isMpIM := isMpIM, isIM := isIM, isPrivate := isPrivate,
      user := "", members := members }

/-- The full input tuple of `mapChannel`, bundled for the purity claim. -/
structure MapChannelInput where
  id : String
  name : String
  nameNormalized : String
  topic : String
  purpose : String
  user : String
  members : List String
  numMembers : Int
  isIM : Bool
  isMpIM : Bool
  isPrivate : Bool
  usersMap : SMap SlackUser

/-- Run `mapChannel` on a bundled input tuple. -/
def runMapChannel (i : MapChannelInput) : Channel :=
  mapChannel i.id i.name i.nameNormalized i.topic i.purpose i.user
    i.members i.numMembers i.isIM i.isMpIM i.isPrivate i.usersMap

/-- Go `strings.HasPrefix`, embedded structurally over character lists. -/
def goStartsWith (s pre : String) : Bool :=
  pre.data.isPrefixOf s.data

/-- The credential shape selected by `New`. -/
inductive Credential where
  | session (xoxc xoxd : String)
  | userOAuth (token : String)
  | bot (token : String)
deriving DecidableEq

/-- The fatal configuration errors `New` can raise. -/
inductive FatalReason where
  | sessionTokenInUserSlot
  | noCredential
deriving DecidableEq

/-- Outcome of credential selection: a provider with its `isBotToken`
capability flag and whether a wrong-slot warning was logged, or a fatal
configuration error (the process does not start). -/
inductive SelectOutcome where
  | ok (cred : Credential) (isBotToken : Bool) (warned : Bool)
  | fatal (reason : FatalReason)
deriving DecidableEq

/-- True exactly on the fatal outcomes. -/
def SelectOutcome.isFatal : SelectOutcome → Bool
  | .ok _ _ _ => false
  | .fatal _ => true

/-- The credential-selection logic of `New`: priority XOXC+XOXD pair, then
XOXP, then XOXB; a bot-shaped token in the user slot is downgraded to a bot
credential with a warning; a session-shaped token in the user slot is fatal;
a user-shaped token in the bot slot is accepted with a warning; no credential
at all is fatal. -/
def selectCredential (xoxc xoxd xoxp xoxb : String) : SelectOutcome :=
  if xoxc ≠ "" ∧ xoxd ≠ "" then
    SelectOutcome.ok (Credential.session xoxc xoxd) false false
  else if xoxp ≠ "" then
    if goStartsWith xoxp "xoxb-" then
      SelectOutcome.ok (Credential.bot xoxp) true true
    else if goStartsWith xoxp "xoxc-" then
      SelectOutcome.fatal FatalReason.sessionTokenInUserSlot
    else
      SelectOutcome.ok (Credential.userOAuth xoxp) false false
  else if xoxb ≠ "" then
    SelectOutcome.ok (Credential.bot xoxb) true (goStartsWith xoxb "xoxp-")
  else
    SelectOutcome.fatal FatalReason.noCredential

/-- The user-directory state of `ApiProvider`: canonical ID-keyed map plus
the four inverse indices maintained by `RefreshUsers`. -/
structure UserMaps where
  users : SMap SlackUser
  usersInv : SMap String
  usersDisplayNameInv : SMap String
  usersRealNameInv : SMap String
  usersEmailInv : SMap String

/-- The empty user directory (`New` initializes all five maps empty). -/
def emptyUserMaps : UserMaps :=
  { users := SMap.empty, usersInv := SMap.empty,
    usersDisplayNameInv := SMap.empty, usersRealNameInv := SMap.empty,
    usersEmailInv := SMap.empty }

/-- The per-user merge step of `RefreshUsers` (identical on the snapshot and
live paths): store by ID, index by username, and index by normalized display
name, normalized real name and email when non-empty. -/
def insertUser (m : UserMaps) (u : SlackUser) : UserMaps :=
  { users := m.users.insert u.id u
    usersInv := m.usersInv.insert u.name u.id
    usersDisplayNameInv :=
      if u.displayName ≠ "" then
        m.usersDisplayNameInv.insert (normalizeString u.displayName) u.id
      else m.usersDisplayNameInv
    usersRealNameInv :=
      if u.realName ≠ "" then
        m.usersRealNameInv.insert (normalizeString u.realName) u.id
      else m.usersRealNameInv
    usersEmailInv :=
      if u.email ≠ "" then m.usersEmailInv.insert u.email u.id
      else m.usersEmailInv }

/-- Merging a batch of users into the directory, in list order. -/
def mergeUsers (us : List SlackUser) (m : UserMaps) : UserMaps :=
  us.foldl insertUser m

/-- The conversation-cache state of `ApiProvider`: canonical ID-keyed map
plus the derived-name inverse index. -/
structure ChannelMaps where
  channels : SMap Channel
  channelsInv : SMap String

/-- The empty conversation cache. -/
def emptyChannelMaps : ChannelMaps :=
  { channels := SMap.empty, channelsInv := SMap.empty }

/-- The per-conversation merge step (`ap.channels[ch.ID] = ch;
ap.channelsInv[ch.Name] = ch.ID`). -/
def insertChannel (m : ChannelMaps) (c : Channel) : ChannelMaps :=
  { channels := m.channels.insert c.id c
    channelsInv := m.channelsInv.insert c.name c.id }

/-- Merging a batch of conversations into the cache, in list order. -/
def mergeChannels (cs : List Channel) (m : ChannelMaps) : ChannelMaps :=
  cs.foldl insertChannel m

/-- The re-derivation `RefreshChannels` applies to a direct-message entry
loaded from the disk snapshot: `mapChannel` on the stored attributes with
empty name fields, against the current users map. -/
def remapIMChannel (usersMap : SMap SlackUser) (c : Channel) : Channel :=
  mapChannel c.id "" "" c.topic c.purpose c.user c.members c.memberCount
    c.isIM c.isMpIM c.isPrivate usersMap

/-- The snapshot-load branch of `RefreshChannels`: direct-message entries are
re-derived against the current users map, all other entries are stored
verbatim; both update the derived-name inverse index.  This path performs no
network call: it is a pure function of the loaded snapshot and the current
users map. -/
def loadChannelsSnapshot (usersMap : SMap SlackUser) (loaded : List Channel)
    (m : ChannelMaps) : ChannelMaps :=
  loaded.foldl
    (fun s c =>
      if c.isIM then insertChannel s (remapIMChannel usersMap c)
      else insertChannel s c) m

/-- Outcome of reading a disk snapshot: file unreadable, file read but
unparseable, or parsed data. -/
inductive SnapRead (α : Type) where
  | missing
  | malformed
  | parsed (data : α)

/-- Result of `RefreshUsers`: final directory state, the error returned to
the caller, whether a live fetch was attempted, and whether the
malformed-snapshot warning was logged. -/
structure RefreshUsersOut where
  state : UserMaps
  error : Option Unit
  fetched : Bool
  warnedMalformed : Bool

/-- `RefreshUsers`: a parsed snapshot is merged and the function returns
without fetching; a malformed snapshot logs a warning and falls through to
the live fetch; a missing snapshot falls through silently.  A failed live
fetch returns the error to the caller with the directory unchanged; a
successful live fetch merges the fetched users. -/
def refreshUsers (snap : SnapRead (List SlackUser))
    (live : Except Unit (List SlackUser)) (m : UserMaps) : RefreshUsersOut :=
  match snap with
  | .parsed cached =>
      { state := mergeUsers cached m, error := none,
        fetched := false, warnedMalformed := false }
  | .malformed =>
      match live with
      | .ok us =>
          { state := mergeUsers us m, error := none,
            fetched := true, warnedMalformed := true }
      | .error e =>
          { state := m, error := some e,
            fetched := true, warnedMalformed := true }
  | .missing =>
      match live with
      | .ok us =>
          { state := mergeUsers us m, error := none,
            fetched := true, warnedMalformed := false }
      | .error e =>
          { state := m, error := some e,
            fetched := true, warnedMalformed := false }

/-- The raw conversation attributes `GetChannels` reads off a fetched
`slack.Channel` before calling `mapChannel`. -/
structure ConvInfo where
  id : String
  name : String
  nameNormalized : String
  topic : String
  purpose : String
  user : String
  members : List String
  numMembers : Int
  isIM : Bool
  isMpIM : Bool
  isPrivate : Bool
deriving DecidableEq

/-- `mapChannel` applied to a raw fetched conversation. -/
def mapConv (usersMap : SMap SlackUser) (c : ConvInfo) : Channel :=
  mapChannel c.id c.name c.nameNormalized c.topic c.purpose c.user
    c.members c.numMembers c.isIM c.isMpIM c.isPrivate usersMap

/-- One page of the standard-protocol conversation enumeration: the raw
conversations plus the pagination cursor returned with them (empty cursor
means end of pagination). -/
structure Page where
  convs : List ConvInfo
  nextCursor : String
deriving DecidableEq

/-- The server's response to one page request: a page, or a fetch error. -/
inductive PageResp where
  | page (p : Page)
  | fetchFail
deriving DecidableEq

/-- Observable events of the enumeration loop: a page request issued, a
rate-limit permit acquired, or the permit wait aborted by cancellation. -/
inductive FetchEv where
  | fetch
  | permit
  | cancelled
deriving DecidableEq

/-- Result of the `GetChannels` pagination loop: the event trace, the final
cache state, and how the loop ended. -/
structure LoopOut where
  events : List FetchEv
  state : ChannelMaps
  cancelled : Bool
  fetchFailed : Bool

/-- The standard-protocol pagination loop of `GetChannels`.  Per iteration:
issue the page request (a failure logs and breaks, keeping the state merged
so far); map the fetched conversations and append them to the accumulator;
acquire a rate-limit permit (`lim.Wait(ctx)`) — a cancellation returns
immediately, skipping the merge of the current iteration; merge the whole
accumulator into the cache; stop when the cursor comes back empty.  The
server is modelled as the list of its successive responses (an exhausted
response list behaves as a fetch error). -/
def getChannelsLoop (usersMap : SMap SlackUser) :
    List PageResp → Nat → List Channel → ChannelMaps → LoopOut
  | [], _, _, m =>
      { events := [FetchEv.fetch], state := m,
        cancelled := false, fetchFailed := true }
  | PageResp.fetchFail :: _, _, _, m =>
      { events := [FetchEv.fetch], state := m,
        cancelled := false, fetchFailed := true }
  | PageResp.page p :: rest, budget, acc, m =>
      let acc2 := acc ++ p.convs.map (mapConv usersMap)
      match budget with
      | 0 =>
          { events := [FetchEv.fetch, FetchEv.cancelled], state := m,
            cancelled := true, fetchFailed := false }
      | Nat.succ b =>
          let m2 := mergeChannels acc2 m
          if p.nextCursor = "" then
            { events := [FetchEv.fetch, FetchEv.permit], state := m2,
              cancelled := false, fetchFailed := false }
          else
            let r := getChannelsLoop usersMap rest b acc2 m2
            { events := FetchEv.fetch :: FetchEv.permit :: r.events,
              state := r.state, cancelled := r.cancelled,
              fetchFailed := r.fetchFailed }

/-- `GetChannels` over the standard protocol, started with an empty
accumulator.  The rate-limit budget models how many permit acquisitions the
caller's context allows before cancellation. -/
def getChannelsRun (usersMap : SMap SlackUser) (server : List PageResp)
    (budget : Nat) (m : ChannelMaps) : LoopOut :=
  getChannelsLoop usersMap server budget [] m

/-- Result of `RefreshChannels`: final cache state, the error returned to
the caller, whether a live fetch was attempted, whether the
malformed-snapshot warning was logged, whether a live page request failed,
and the live-path event trace. -/
structure RefreshChannelsOut where
  state : ChannelMaps
  error : Option Unit
  fetched : Bool
  warnedMalformed : Bool
  fetchFailed : Bool
  events : List FetchEv

/-- `RefreshChannels`: a parsed snapshot is loaded (direct messages
re-derived, the rest verbatim) without any network call; a malformed
snapshot logs a warning and falls through to the live fetch; a missing
snapshot falls through silently.  The live path runs the `GetChannels`
pagination loop and returns a nil error on every path — a live fetch
failure is logged inside the loop and never surfaced. -/
def refreshChannelsModel (usersMap : SMap SlackUser)
    (snap : SnapRead (List Channel)) (server : List PageResp) (budget : Nat)
    (m : ChannelMaps) : RefreshChannelsOut :=
  match snap with
  | .parsed loaded =>
      { state := loadChannelsSnapshot usersMap loaded m, error := none,
        fetched := false, warnedMalformed := false, fetchFailed := false,
        events := [] }
  | .malformed =>
      let out := getChannelsRun usersMap server budget m
      { state := out.state, error := none, fetched := true,
        warnedMalformed := true, fetchFailed := out.fetchFailed,
        events := out.events }
  | .missing =>
      let out := getChannelsRun usersMap server budget m
      { state := out.state, error := none, fetched := true,
        warnedMalformed := false, fetchFailed := out.fetchFailed,
        events := out.events }

/-- Well-formed server page list: non-empty, every page except the last
carries a non-empty continuation cursor, and the last page's cursor is
empty. -/
def wfPages : List Page → Prop
  | [] => False
  | [p] => p.nextCursor = ""
  | p :: q :: rest => p.nextCursor ≠ "" ∧ wfPages (q :: rest)

/-- The event trace of a completed n-page enumeration: n times a page
request followed by its permit acquisition. -/
def pagedTrace : Nat → List FetchEv
  | 0 => []
  | Nat.succ n => FetchEv.fetch :: FetchEv.permit :: pagedTrace n

/-- The claim's reading of the backpressure contract: strictly more permits
than completed page requests have been acquired before each page request is
issued (i.e. a fresh permit precedes every page request). -/
def permitPrecedesEachFetch (evs : List FetchEv) : Prop :=
  ∀ i, i < evs.length → evs.getD i FetchEv.permit = FetchEv.fetch →
    (evs.take i).count FetchEv.fetch < (evs.take i).count FetchEv.permit

/-- No user inverse index contains a key mapping to an ID absent from the
canonical user map. -/
def noDanglingUsers (m : UserMaps) : Prop :=
  (∀ k id, m.usersInv k = some id → (m.users id).isSome) ∧
  (∀ k id, m.usersDisplayNameInv k = some id → (m.users id).isSome) ∧
  (∀ k id, m.usersRealNameInv k = some id → (m.users id).isSome) ∧
  (∀ k id, m.usersEmailInv k = some id → (m.users id).isSome)

/-- The conversation inverse index contains no key mapping to an ID absent
from the canonical conversation map. -/
def noDanglingChannels (m : ChannelMaps) : Prop :=
  ∀ k id, m.channelsInv k = some id → (m.channels id).isSome

/-- The claim's reachability property for the user directory: every ID in
the canonical map is reachable from each of its applicable inverse
indices. -/
def userIndicesReachable (m : UserMaps) : Prop :=
  ∀ id u, m.users id = some u →
    m.usersInv u.name = some id ∧
    (u.displayName ≠ "" →
      m.usersDisplayNameInv (normalizeString u.displayName) = some id) ∧
    (u.realName ≠ "" →
      m.usersRealNameInv (normalizeString u.realName) = some id) ∧
    (u.email ≠ "" → m.usersEmailInv u.email = some id)

/-- A rich-text section element (`slack.RichTextSectionElement`); variants
the extractor's type switch does not handle are collapsed into `other`. -/
inductive RichSectionElem where
  | textEl (text : String)
  | linkEl (url text : String)
  | userEl (userID : String)
  | channelEl (channelID : String)
  | emojiEl (name : String)
  | dateEl (timestamp : Int)
  | other

/-- A rich-text element (`slack.RichTextElement`); unhandled variants are
collapsed into `other`. -/
inductive RichElem where
  | sectionEl (elements : List RichSectionElem)
  | listEl (elements : List RichElem)
  | quoteEl (elements : List RichSectionElem)
  | preformattedEl (elements : List RichSectionElem)
  | other

/-- An element of a context block: a text object, an image (alt text), or an
unhandled variant. -/
inductive ContextElem where
  | textObj (text : String)
  | image (altText : String)
  | other

/-- A message block (`slack.Block`); the section block's text object and its
fields are optional (nil pointers in Go); unhandled block types are
collapsed into `other`. -/
inductive SlackBlock where
  | sectionBlock (text : Option String) (fields : List (Option String))
  | richTextBlock (elements : List RichElem)
  | headerBlock (text : Option String)
  | contextBlock (elements : List ContextElem)
  | other

/-- The fields of `slack.Attachment` the extractor reads; `fields` holds the
(Title, Value) pairs. -/
structure Attachment where
  title : String
  titleLink : String
  pretext : String
  text : String
  authorName : String
  fields : List (String × String)
  footer : String
  blocks : List SlackBlock

/-- The fields of `slack.File` the extractor reads. -/
structure SlackFile where
  name : String
  title : String
  previewHighlight : String

/-- The fields of `slack.Message` the extractor reads. -/
structure SlackMessage where
  text : String
  blocks : List SlackBlock
  attachments : List Attachment
  files : List SlackFile

/-- `extractTextFromRichTextSectionElement`: the text parts contributed by
one rich-text section element. -/
def extractSectionElem : RichSectionElem → List String
  | .textEl t => if t ≠ "" then [t] else []
  | .linkEl url text =>
      let linkText := if text = "" then url else text
      if url ≠ "" then [url ++ " - " ++ linkText] else []
  | .userEl uid => ["<@" ++ uid ++ ">"]
  | .channelEl cid => ["<#" ++ cid ++ ">"]
  | .emojiEl nm => [":" ++ nm ++ ":"]
  | .dateEl ts => [toString ts]
  | .other => []

/-- The concatenated parts of a list of rich-text section elements. -/
def extractSectionElems (es : List RichSectionElem) : List String :=
  (es.map extractSectionElem).flatten

mutual

/-- `extractTextFromRichTextElement`: sections, quotes and preformatted
runs contribute their section-element parts; lists recurse. -/
def extractRichElem : RichElem → List String
  | .sectionEl es => extractSectionElems es
  | .listEl items => extractRichElems items
  | .quoteEl es => extractSectionElems es
  | .preformattedEl es => extractSectionElems es
  | .other => []

/-- The concatenated parts of a list of rich-text elements. -/
def extractRichElems : List RichElem → List String
  | [] => []
  | e :: rest => extractRichElem e ++ extractRichElems rest

end

/-- `extractTextFromSectionBlock`: the optional text object followed by the
non-nil fields. -/
def extractTextFromSectionBlock (text : Option String)
    (fields : List (Option String)) : List String :=
  (match text with | some t => [t] | none => []) ++ fields.filterMap id

/-- `extractTextFromContextBlock`: text objects verbatim, images as
bracketed alt text when non-empty. -/
def extractTextFromContextBlock (es : List ContextElem) : List String :=
  (es.map fun e =>
    match e with
    | .textObj t => [t]
    | .image alt => if alt ≠ "" then ["[Image: " ++ alt ++ "]"] else []
    | .other => []).flatten

/-- `extractTextFromBlocks`: the per-block parts joined with newlines. -/
def extractTextFromBlocks (blocks : List SlackBlock) : String :=
  String.intercalate "\n"
    ((blocks.map fun b =>
      match b with
      | .sectionBlock t fs => extractTextFromSectionBlock t fs
      | .richTextBlock es => extractRichElems es
      | .headerBlock t => (match t with | some s => [s] | none => [])
      | .contextBlock es => extractTextFromContextBlock es
      | .other => []).flatten)

/-- `extractTextFromAttachments`: per attachment — title (with link),
pretext, main text, author, fields, footer, then nested blocks — joined
with newlines. -/
def extractTextFromAttachments (atts : List Attachment) : String :=
  String.intercalate "\n"
    ((atts.map fun att =>
      (if att.title ≠ "" then
        [if att.titleLink ≠ "" then
          att.title ++ " (" ++ att.titleLink ++ ")" else att.title]
      else []) ++
      (if att.pretext ≠ "" then [att.pretext] else []) ++
      (if att.text ≠ "" then [att.text] else []) ++
      (if att.authorName ≠ "" then ["Author: " ++ att.authorName] else []) ++
      att.fields.map (fun f => f.1 ++ ": " ++ f.2) ++
      (if att.footer ≠ "" then [att.footer] else []) ++
      (if att.blocks.isEmpty then []
       else
        (let blockText := extractTextFromBlocks att.blocks
         if blockText ≠ "" then [blockText] else []))).flatten)

/-- `extractTextFromFiles`: per file a bracketed name/title line plus the
preview highlight when present, joined with newlines. -/
def extractTextFromFiles (files : List SlackFile) : String :=
  String.intercalate "\n"
    ((files.map fun f =>
      (if f.title ≠ "" ∧ f.title ≠ f.name then
        ["[File: " ++ f.title ++ " (" ++ f.name ++ ")]"]
      else ["[File: " ++ f.name ++ "]"]) ++
      (if f.previewHighlight ≠ "" then [f.previewHighlight] else [])).flatten)

/-- Go `unicode.IsSpace` (the Unicode White_Space property). -/
def goIsSpace (c : Char) : Bool :=
  (9 ≤ c.toNat && c.toNat ≤ 13) || c.toNat = 32 || c.toNat = 0x85 ||
  c.toNat = 0xA0 || c.toNat = 0x1680 ||
  (0x2000 ≤ c.toNat && c.toNat ≤ 0x200A) || c.toNat = 0x2028 ||
  c.toNat = 0x2029 || c.toNat = 0x202F || c.toNat = 0x205F ||
  c.toNat = 0x3000

/-- Go `strings.TrimSpace`: drop leading and trailing white space. -/
def trimSpace (s : String) : String :=
  String.mk (((s.data.dropWhile goIsSpace).reverse.dropWhile goIsSpace).reverse)

/-- The deduplication loop of `deduplicateAndJoin`: trim each part, drop the
ones that trim to empty, and keep only first occurrences (the `seen` set is
the accumulator). -/
def dedupParts (seen : List String) : List String → List String
  | [] => []
  | p :: rest =>
    if trimSpace p = "" then dedupParts seen rest
    else if trimSpace p ∈ seen then dedupParts seen rest
    else trimSpace p :: dedupParts (trimSpace p :: seen) rest

/-- `deduplicateAndJoin`: deduplicate the trimmed, non-blank parts in
first-occurrence order and join them with newlines. -/
def deduplicateAndJoin (parts : List String) : String :=
  if parts = [] then "" else String.intercalate "\n" (dedupParts [] parts)

/-- The top-level parts list `ExtractTextFromMessage` assembles before
deduplication: the plain text field, the joined block text, the joined
attachment text and the joined file text, each only when non-empty. -/
def messageParts (msg : SlackMessage) : List String :=
  (if msg.text ≠ "" then [msg.text] else []) ++
  (if msg.blocks.isEmpty then []
   else
    (let blockText := extractTextFromBlocks msg.blocks
     if blockText ≠ "" then [blockText] else [])) ++
  (if msg.attachments.isEmpty then []
   else
    (let attachmentText := extractTextFromAttachments msg.attachments
     if attachmentText ≠ "" then [attachmentText] else [])) ++
  (if msg.files.isEmpty then []
   else
    (let fileText := extractTextFromFiles msg.files
     if fileText ≠ "" then [fileText] else []))

/-- `ExtractTextFromMessage`: assemble the four part groups and
deduplicate-and-join them. -/
def extractTextFromMessage (msg : SlackMessage) : String :=
  deduplicateAndJoin (messageParts msg)

/-- All the index entries the claim requires for one user: the canonical
entry plus reachability through each applicable inverse index. -/
def userEntryIndexed (m : UserMaps) (u : SlackUser) : Prop :=
  m.users u.id = some u ∧
  m.usersInv u.name = some u.id ∧
  (u.displayName ≠ "" →
    m.usersDisplayNameInv (normalizeString u.displayName) = some u.id) ∧
  (u.realName ≠ "" →
    m.usersRealNameInv (normalizeString u.realName) = some u.id) ∧
  (u.email ≠ "" → m.usersEmailInv u.email = some u.id)

/-- `v` does not collide with `u` on any index key unless `v` is `u`
itself: merging `v` cannot overwrite `u`'s index entries. -/
def userKeyCompatible (u v : SlackUser) : Prop :=
  (v.id = u.id → v = u) ∧ (v.name = u.name → v = u) ∧
  (v.displayName ≠ "" → u.displayName ≠ "" →
    normalizeString v.displayName = normalizeString u.displayName → v = u) ∧
  (v.realName ≠ "" → u.realName ≠ "" →
    normalizeString v.realName = normalizeString u.realName → v = u) ∧
  (v.email ≠ "" → u.email ≠ "" → v.email = u.email → v = u)

/-- The index entries the claim requires for one conversation. -/
def channelEntryIndexed (m : ChannelMaps) (c : Channel) : Prop :=
  m.channels c.id = some c ∧ m.channelsInv c.name = some c.id

/-- `d` does not collide with `c` on the ID or derived-name key unless it is
`c` itself. -/
def channelKeyCompatible (c d : Channel) : Prop :=
  (d.id = c.id → d = c) ∧ (d.name = c.name → d = c)

@[simp] theorem SMap.insert_self {α : Type} (m : SMap α) (k : String) (v : α) :
    m.insert k v k = some v := by
  simp [SMap.insert]

theorem SMap.insert_ne {α : Type} (m : SMap α) (k q : String) (v : α) (h : q ≠ k) :
    m.insert k v q = m q := by
  simp [SMap.insert, h]

@[simp] theorem SMap.empty_lookup {α : Type} (k : String) :
    (SMap.empty : SMap α) k = none := rfl

/-- SMap insert preserves definedness of every entry. -/
theorem SMap.insert_isSome {α : Type} (m : SMap α) (k q : String) (v : α)
    (h : (m q).isSome) : ((m.insert k v) q).isSome := by
  by_cases hq : q = k
  · subst hq; simp
  · rw [SMap.insert_ne _ _ _ _ hq]; exact h

/-- C1: for every conversation derived with the direct-message flag set,
`mapChannel` fixes the member count at 2 and clears the topic; the peer is
the explicit peer field, or else the first member ID present in the user
directory; the name and purpose follow the three-tier resolution:
`@`+username / `DM with `+realName when the peer resolves, `@`+raw ID /
`DM with `+raw ID when a peer ID is known but unresolved, and the literal
`@` / `DM with ` plus the empty string when no peer ID is known. -/
theorem mapChannel_directMessage_derivation
    (id name nameNormalized topic purpose user : String)
    (members : List String) (numMembers : Int) (isMpIM isPrivate : Bool)
    (usersMap : SMap SlackUser)
    (userID : String) (hu : userID = resolveDMPeer user members usersMap)
    (ch : Channel)
    (hch : ch = mapChannel id name nameNormalized topic purpose user members
      numMembers true isMpIM isPrivate usersMap) :
    ch.memberCount = 2 ∧ ch.topic = "" ∧
    (user ≠ "" → userID = user) ∧
    (user = "" →
      userID = (members.find? (fun m => (usersMap m).isSome)).getD "") ∧
    (∀ u, usersMap userID = some u →
      ch.name = "@" ++ u.name ∧ ch.purpose = "DM with " ++ u.realName) ∧
    (usersMap userID = none → userID ≠ "" →
      ch.name = "@" ++ userID ∧ ch.purpose = "DM with " ++ userID) ∧
    (usersMap userID = none → userID = "" →
      ch.name = "@" ∧ ch.purpose = "DM with " ++ "") := by
  subst hu hch
  refine ⟨?_, ?_, ?_, ?_, ?_, ?_, ?_⟩
  · cases h : usersMap (resolveDMPeer user members usersMap) with
    | none =>
        by_cases he : resolveDMPeer user members usersMap = "" <;>
          [skip; skip] <;> first
          | (rw [he] at h; simp [mapChannel, he, h])
          | simp [mapChannel, h, he]
    | some u => simp [mapChannel, h]
  · cases h : usersMap (resolveDMPeer user members usersMap) with
    | none =>
        by_cases he : resolveDMPeer user members usersMap = "" <;>
          [skip; skip] <;> first
          | (rw [he] at h; simp [mapChannel, he, h])
          | simp [mapChannel, h, he]
    | some u => simp [mapChannel, h]
  · intro hne
    simp [resolveDMPeer, hne]
  · intro he
    simp only [resolveDMPeer, he, if_pos]
    cases members.find? (fun m => (usersMap m).isSome) <;> rfl
  · intro u h
    simp [mapChannel, h]
  · intro h hne
    simp [mapChannel, h, hne]
  · intro h he
    rw [he] at h
    simp [mapChannel, he, h]

/-- C1 witness: the spec's worked example — a direct message with explicit
peer `U9`, empty member list, and a user directory lacking `U9` derives name
`@U9` and purpose `DM with U9`, member count 2, topic cleared. -/
theorem mapChannel_directMessage_derivation_witness :
    ("U9" : String) = resolveDMPeer "U9" [] (SMap.empty : SMap SlackUser) ∧
    (mapChannel "D1" "" "" "old topic" "old purpose" "U9" [] 0 true false
      false SMap.empty).memberCount = 2 ∧
    (mapChannel "D1" "" "" "old topic" "old purpose" "U9" [] 0 true false
      false SMap.empty).name = "@" ++ "U9" ∧
    (mapChannel "D1" "" "" "old topic" "old purpose" "U9" [] 0 true false
      false SMap.empty).purpose = "DM with " ++ "U9" := by
  have h := mapChannel_directMessage_derivation "D1" "" "" "old topic"
    "old purpose" "U9" [] 0 false false SMap.empty "U9" (by rfl) _ rfl
  exact ⟨by rfl, h.1, (h.2.2.2.2.2.1 rfl (by decide)).1,
    (h.2.2.2.2.2.1 rfl (by decide)).2⟩

/-- C8: for every conversation derived with the group-direct-message flag
set and a non-empty member list, `mapChannel` sets the member count to the
member-list length, the name to `@`+normalized name, the purpose to
`Group DM with ` plus the comma-joined member real names (raw ID fallback
per member), and clears the topic; with an empty member list the original
attributes are left unmapped. -/
theorem mapChannel_groupDM_derivation
    (id name nameNormalized topic purpose user : String)
    (members : List String) (numMembers : Int) (isPrivate : Bool)
    (usersMap : SMap SlackUser)
    (ch : Channel)
    (hch : ch = mapChannel id name nameNormalized topic purpose user members
      numMembers false true isPrivate usersMap) :
    (members ≠ [] →
      ch.memberCount = (members.length : Int) ∧
      ch.name = "@" ++ nameNormalized ∧
      ch.purpose = "Group DM with " ++
        String.intercalate ", " (members.map (dmMemberName usersMap)) ∧
      ch.topic = "") ∧
    (members = [] →
      ch.name = name ∧ ch.purpose = purpose ∧ ch.topic = topic ∧
      ch.memberCount = numMembers) := by
  subst hch
  constructor
  · intro hm
    simp [mapChannel, hm]
  · intro hm
    simp [mapChannel, hm]

/-- C8 witness: the spec's worked example — members `U1`, `U2` resolving to
real names `Alice A` and `Bob B` yield purpose `Group DM with Alice A,
Bob B` and member count 2. -/
theorem mapChannel_groupDM_derivation_witness :
    (["U1", "U2"] : List String) ≠ [] ∧
    (mapChannel "G1" "grp" "grp-norm" "t" "p" "" ["U1", "U2"] 7 false true
      false ((SMap.empty.insert "U1" ⟨"U1", "alice", "Alice A", "", ""⟩).insert
        "U2" ⟨"U2", "bob", "Bob B", "", ""⟩ : SMap SlackUser)).memberCount = 2 ∧
    (mapChannel "G1" "grp" "grp-norm" "t" "p" "" ["U1", "U2"] 7 false true
      false ((SMap.empty.insert "U1" ⟨"U1", "alice", "Alice A", "", ""⟩).insert
        "U2" ⟨"U2", "bob", "Bob B", "", ""⟩ : SMap SlackUser)).purpose =
      "Group DM with Alice A, Bob B" := by
  have h := (mapChannel_groupDM_derivation "G1" "grp" "grp-norm" "t" "p" ""
    ["U1", "U2"] 7 false
    ((SMap.empty.insert "U1" ⟨"U1", "alice", "Alice A", "", ""⟩).insert
      "U2" ⟨"U2", "bob", "Bob B", "", ""⟩) _ rfl).1 (by decide)
  refine ⟨by decide, ?_, ?_⟩
  · rw [h.1]; rfl
  · rw [h.2.2.1]; rfl

/-- C9: `mapChannel` is a pure, deterministic function of its input tuple:
two invocations on identical inputs produce identical output (the embedding
is a total function with no other inputs, so it reads no hidden state). -/
theorem mapChannel_deterministic (i j : MapChannelInput) (h : i = j) :
    runMapChannel i = runMapChannel j := by
  rw [h]

/-- C9 witness: two invocations on a concrete identical input tuple agree. -/
theorem mapChannel_deterministic_witness :
    runMapChannel
      ⟨"D1", "", "", "", "", "U1", [], 0, true, false, false, SMap.empty⟩ =
    runMapChannel
      ⟨"D1", "", "", "", "", "U1", [], 0, true, false, false, SMap.empty⟩ :=
  mapChannel_deterministic _ _ rfl

/-- C3 counterexample: a user-shaped (`xoxp-`) token placed in the bot-token
slot is not rejected — `New` logs a warning and accepts it as a bot
credential, contradicting the claim that every wrong-slot value except a
bot-shaped token in the user slot fails fast. -/
theorem userTokenInBotSlot_accepted :
    (selectCredential "" "" "" "xoxp-123").isFatal = false ∧
    selectCredential "" "" "" "xoxp-123" =
      SelectOutcome.ok (Credential.bot "xoxp-123") true true := by
  constructor <;> decide

/-- C3 (amended): wrong-slot handling of `New` — a bot-shaped token in the
user slot is accepted with a capability downgrade (`isBotToken` true) and a
warning; a session-shaped token in the user slot fails fast; a user-shaped
token in the bot slot is accepted as a bot credential with a warning rather
than failing fast. -/
theorem credentialSelector_wrongSlot_handling (xoxc xoxd xoxp xoxb : String) :
    (¬(xoxc ≠ "" ∧ xoxd ≠ "") → xoxp ≠ "" → goStartsWith xoxp "xoxb-" = true →
      selectCredential xoxc xoxd xoxp xoxb =
        SelectOutcome.ok (Credential.bot xoxp) true true) ∧
    (¬(xoxc ≠ "" ∧ xoxd ≠ "") → xoxp ≠ "" →
      goStartsWith xoxp "xoxb-" = false → goStartsWith xoxp "xoxc-" = true →
      selectCredential xoxc xoxd xoxp xoxb =
        SelectOutcome.fatal FatalReason.sessionTokenInUserSlot) ∧
    (¬(xoxc ≠ "" ∧ xoxd ≠ "") → xoxp = "" → xoxb ≠ "" →
      goStartsWith xoxb "xoxp-" = true →
      selectCredential xoxc xoxd xoxp xoxb =
        SelectOutcome.ok (Credential.bot xoxb) true true) := by
  refine ⟨?_, ?_, ?_⟩ <;> intros <;> simp [selectCredential, *]

/-- C3 witness: concrete instances of all three wrong-slot behaviors. -/
theorem credentialSelector_wrongSlot_handling_witness :
    selectCredential "" "" "xoxb-1" "" =
      SelectOutcome.ok (Credential.bot "xoxb-1") true true ∧
    selectCredential "" "" "xoxc-1" "" =
      SelectOutcome.fatal FatalReason.sessionTokenInUserSlot ∧
    selectCredential "" "" "" "xoxp-1" =
      SelectOutcome.ok (Credential.bot "xoxp-1") true true :=
  ⟨(credentialSelector_wrongSlot_handling "" "" "xoxb-1" "").1
      (by simp) (by decide) (by decide),
    (credentialSelector_wrongSlot_handling "" "" "xoxc-1" "").2.1
      (by simp) (by decide) (by decide) (by decide),
    (credentialSelector_wrongSlot_handling "" "" "" "xoxp-1").2.2
      (by simp) rfl (by decide) (by decide)⟩

/-- C4: `New` picks exactly one credential shape in priority order
session pair, then user token, then bot token; a session-shaped value in
the user slot is a fatal configuration error; and with no credential in any
slot it fails fatally so the process does not start. -/
theorem credentialSelector_priority (xoxc xoxd xoxp xoxb : String) :
    (xoxc ≠ "" → xoxd ≠ "" →
      selectCredential xoxc xoxd xoxp xoxb =
        SelectOutcome.ok (Credential.session xoxc xoxd) false false) ∧
    (¬(xoxc ≠ "" ∧ xoxd ≠ "") → xoxp ≠ "" →
      goStartsWith xoxp "xoxb-" = false → goStartsWith xoxp "xoxc-" = false →
      selectCredential xoxc xoxd xoxp xoxb =
        SelectOutcome.ok (Credential.userOAuth xoxp) false false) ∧
    (¬(xoxc ≠ "" ∧ xoxd ≠ "") → xoxp = "" → xoxb ≠ "" →
      selectCredential xoxc xoxd xoxp xoxb =
        SelectOutcome.ok (Credential.bot xoxb) true
          (goStartsWith xoxb "xoxp-")) ∧
    (¬(xoxc ≠ "" ∧ xoxd ≠ "") → xoxp ≠ "" →
      goStartsWith xoxp "xoxc-" = true → goStartsWith xoxp "xoxb-" = false →
      selectCredential xoxc xoxd xoxp xoxb =
        SelectOutcome.fatal FatalReason.sessionTokenInUserSlot) ∧
    (xoxc = "" → xoxd = "" → xoxp = "" → xoxb = "" →
      selectCredential xoxc xoxd xoxp xoxb =
        SelectOutcome.fatal FatalReason.noCredential) := by
  refine ⟨?_, ?_, ?_, ?_, ?_⟩ <;> intros <;> simp [selectCredential, *]

/-- `mapChannel` always preserves the conversation ID. -/
theorem mapChannel_id (id name nameNormalized topic purpose user : String)
    (members : List String) (numMembers : Int) (isIM isMpIM isPrivate : Bool)
    (usersMap : SMap SlackUser) :
    (mapChannel id name nameNormalized topic purpose user members numMembers
      isIM isMpIM isPrivate usersMap).id = id := by
  unfold mapChannel
  repeat' split
  all_goals rfl

/-- The re-derived direct-message entry keeps its conversation ID. -/
theorem remapIMChannel_id (usersMap : SMap SlackUser) (c : Channel) :
    (remapIMChannel usersMap c).id = c.id :=
  mapChannel_id c.id "" "" c.topic c.purpose c.user c.members c.memberCount
    c.isIM c.isMpIM c.isPrivate usersMap

/-- Unfolding of the snapshot-load fold on a cons cell. -/
theorem loadChannelsSnapshot_cons (usersMap : SMap SlackUser) (c : Channel)
    (rest : List Channel) (m : ChannelMaps) :
    loadChannelsSnapshot usersMap (c :: rest) m =
      loadChannelsSnapshot usersMap rest
        (if c.isIM then insertChannel m (remapIMChannel usersMap c)
         else insertChannel m c) := rfl

/-- Frame property: loading a snapshot whose entries all have IDs different
from `i` does not change the canonical entry at `i`. -/
theorem loadChannelsSnapshot_frame (usersMap : SMap SlackUser) :
    ∀ (loaded : List Channel) (m : ChannelMaps) (i : String),
    (∀ x ∈ loaded, x.id ≠ i) →
    (loadChannelsSnapshot usersMap loaded m).channels i = m.channels i := by
  intro loaded
  induction loaded with
  | nil => intro m i _; rfl
  | cons a rest ih =>
      intro m i h
      rw [loadChannelsSnapshot_cons]
      rw [ih _ i (fun x hx => h x (List.mem_cons_of_mem a hx))]
      have ha : i ≠ a.id := Ne.symm (h a (List.mem_cons_self a rest))
      cases hIM : a.isIM with
      | true =>
          simp only [hIM, if_true]
          show (ChannelMaps.channels _) i = m.channels i
          unfold insertChannel
          simp only
          rw [remapIMChannel_id]
          exact SMap.insert_ne _ _ _ _ ha
      | false =>
          simp only [hIM, Bool.false_eq_true, if_false]
          show (ChannelMaps.channels _) i = m.channels i
          unfold insertChannel
          simp only
          exact SMap.insert_ne _ _ _ _ ha

/-- Snapshot load stores, for every loaded entry, the re-derived channel for
direct messages and the verbatim channel otherwise (under distinct IDs). -/
theorem loadChannelsSnapshot_mem (usersMap : SMap SlackUser) (c : Channel) :
    ∀ (loaded : List Channel),
    List.Pairwise (fun a b => a.id ≠ b.id) loaded → c ∈ loaded →
    ∀ (m : ChannelMaps),
    (loadChannelsSnapshot usersMap loaded m).channels c.id =
      some (if c.isIM then remapIMChannel usersMap c else c) := by
  intro loaded
  induction loaded with
  | nil => intro _ hmem _; cases hmem
  | cons a rest ih =>
      intro hp hmem m
      rw [List.pairwise_cons] at hp
      rcases List.mem_cons.mp hmem with hc | hc
      · subst hc
        rw [loadChannelsSnapshot_cons]
        rw [loadChannelsSnapshot_frame usersMap rest _ c.id
          (fun x hx => (hp.1 x hx).symm)]
        cases hIM : c.isIM with
        | true =>
            simp only [hIM, if_true]
            show (insertChannel m (remapIMChannel usersMap c)).channels c.id = _
            unfold insertChannel
            simp only
            rw [← remapIMChannel_id usersMap c]
            simp
        | false =>
            simp only [hIM, Bool.false_eq_true, if_false]
            show (insertChannel m c).channels c.id = _
            unfold insertChannel
            simp
      · rw [loadChannelsSnapshot_cons]
        exact ih hp.2 hc _

/-- C2: on a successful disk-snapshot reload (`RefreshChannels` with a
parseable snapshot), every loaded direct-message entry is re-derived via
`mapChannel` against the current user directory, every other entry is
stored verbatim, no live fetch is performed (no network events), and the
refresh reports success. -/
theorem refreshChannels_snapshot_rederivation (usersMap : SMap SlackUser)
    (loaded : List Channel) (server : List PageResp) (budget : Nat)
    (m : ChannelMaps)
    (hids : List.Pairwise (fun a b => a.id ≠ b.id) loaded)
    (out : RefreshChannelsOut)
    (hout : out = refreshChannelsModel usersMap (SnapRead.parsed loaded)
      server budget m) :
    out.fetched = false ∧ out.events = [] ∧ out.error = none ∧
    (∀ c ∈ loaded, c.isIM = true →
      out.state.channels c.id = some (remapIMChannel usersMap c)) ∧
    (∀ c ∈ loaded, c.isIM = false →
      out.state.channels c.id = some c) := by
  subst hout
  refine ⟨rfl, rfl, rfl, ?_, ?_⟩
  · intro c hc hIM
    have h := loadChannelsSnapshot_mem usersMap c loaded hids hc m
    rw [hIM] at h
    simpa using h
  · intro c hc hIM
    have h := loadChannelsSnapshot_mem usersMap c loaded hids hc m
    rw [hIM] at h
    simpa using h

/-- C2 witness: a two-entry snapshot — a direct message whose stored peer
now resolves, and a standard channel — reloads with the direct message
re-derived against the current directory and the standard channel stored
verbatim, with no network events. -/
theorem refreshChannels_snapshot_rederivation_witness :
    List.Pairwise (fun a b : Channel => a.id ≠ b.id)
      [⟨"D1", "@U7", "", "DM with U7", 2, false, true, false, "U7", []⟩,
       ⟨"C1", "#general", "t", "p", 5, false, false, false, "", []⟩] ∧
    (refreshChannelsModel (SMap.empty.insert "U7" ⟨"U7", "grace", "Grace G", "", ""⟩)
      (SnapRead.parsed
        [⟨"D1", "@U7", "", "DM with U7", 2, false, true, false, "U7", []⟩,
         ⟨"C1", "#general", "t", "p", 5, false, false, false, "", []⟩])
      [] 0 emptyChannelMaps).fetched = false ∧
    (refreshChannelsModel (SMap.empty.insert "U7" ⟨"U7", "grace", "Grace G", "", ""⟩)
      (SnapRead.parsed
        [⟨"D1", "@U7", "", "DM with U7", 2, false, true, false, "U7", []⟩,
         ⟨"C1", "#general", "t", "p", 5, false, false, false, "", []⟩])
      [] 0 emptyChannelMaps).state.channels "D1" =
      some (remapIMChannel
        (SMap.empty.insert "U7" ⟨"U7", "grace", "Grace G", "", ""⟩)
        ⟨"D1", "@U7", "", "DM with U7", 2, false, true, false, "U7", []⟩) ∧
    (refreshChannelsModel (SMap.empty.insert "U7" ⟨"U7", "grace", "Grace G", "", ""⟩)
      (SnapRead.parsed
        [⟨"D1", "@U7", "", "DM with U7", 2, false, true, false, "U7", []⟩,
         ⟨"C1", "#general", "t", "p", 5, false, false, false, "", []⟩])
      [] 0 emptyChannelMaps).state.channels "C1" =
      some ⟨"C1", "#general", "t", "p", 5, false, false, false, "", []⟩ := by
  have h := refreshChannels_snapshot_rederivation
    (SMap.empty.insert "U7" ⟨"U7", "grace", "Grace G", "", ""⟩)
    [⟨"D1", "@U7", "", "DM with U7", 2, false, true, false, "U7", []⟩,
     ⟨"C1", "#general", "t", "p", 5, false, false, false, "", []⟩]
    [] 0 emptyChannelMaps (by decide) _ rfl
  exact ⟨by decide, h.1,
    h.2.2.2.1 ⟨"D1", "@U7", "", "DM with U7", 2, false, true, false, "U7", []⟩
      (by simp) rfl,
    h.2.2.2.2 ⟨"C1", "#general", "t", "p", 5, false, false, false, "", []⟩
      (by simp) rfl⟩

/-- C4 witness: a concrete session pair wins over a populated user slot, and
four empty slots are fatal. -/
theorem credentialSelector_priority_witness :
    selectCredential "xoxc-1" "xoxd-1" "xoxp-1" "" =
      SelectOutcome.ok (Credential.session "xoxc-1" "xoxd-1") false false ∧
    selectCredential "" "" "" "" =
      SelectOutcome.fatal FatalReason.noCredential :=
  ⟨(credentialSelector_priority "xoxc-1" "xoxd-1" "xoxp-1" "").1
      (by decide) (by decide),
    (credentialSelector_priority "" "" "" "").2.2.2.2 rfl rfl rfl rfl⟩

/-- Inserting a user establishes all of its own index entries. -/
theorem insertUser_establishes (m : UserMaps) (u : SlackUser) :
    userEntryIndexed (insertUser m u) u := by
  refine ⟨?_, ?_, ?_, ?_, ?_⟩
  · show (m.users.insert u.id u) u.id = some u
    exact SMap.insert_self _ _ _
  · show (m.usersInv.insert u.name u.id) u.name = some u.id
    exact SMap.insert_self _ _ _
  · intro hd
    show (if u.displayName ≠ "" then
        m.usersDisplayNameInv.insert (normalizeString u.displayName) u.id
      else m.usersDisplayNameInv) (normalizeString u.displayName) = some u.id
    rw [if_pos hd]
    exact SMap.insert_self _ _ _
  · intro hr
    show (if u.realName ≠ "" then
        m.usersRealNameInv.insert (normalizeString u.realName) u.id
      else m.usersRealNameInv) (normalizeString u.realName) = some u.id
    rw [if_pos hr]
    exact SMap.insert_self _ _ _
  · intro he
    show (if u.email ≠ "" then m.usersEmailInv.insert u.email u.id
      else m.usersEmailInv) u.email = some u.id
    rw [if_pos he]
    exact SMap.insert_self _ _ _

/-- Inserting a key-compatible user preserves another user's index
entries. -/
theorem insertUser_preserves (m : UserMaps) (u v : SlackUser)
    (hc : userKeyCompatible u v) (h : userEntryIndexed m u) :
    userEntryIndexed (insertUser m v) u := by
  by_cases hv : v = u
  · subst hv; exact insertUser_establishes m v
  · have hid : u.id ≠ v.id := fun he => hv (hc.1 he.symm)
    have hname : u.name ≠ v.name := fun he => hv (hc.2.1 he.symm)
    refine ⟨?_, ?_, ?_, ?_, ?_⟩
    · show (m.users.insert v.id v) u.id = some u
      rw [SMap.insert_ne _ _ _ _ hid]; exact h.1
    · show (m.usersInv.insert v.name v.id) u.name = some u.id
      rw [SMap.insert_ne _ _ _ _ hname]; exact h.2.1
    · intro hd
      show (if v.displayName ≠ "" then
          m.usersDisplayNameInv.insert (normalizeString v.displayName) v.id
        else m.usersDisplayNameInv) (normalizeString u.displayName) = some u.id
      by_cases hvd : v.displayName = ""
      · rw [if_neg (not_not_intro hvd)]
        exact h.2.2.1 hd
      · rw [if_pos hvd]
        have hnd : normalizeString u.displayName ≠ normalizeString v.displayName :=
          fun he => hv (hc.2.2.1 hvd hd he.symm)
        rw [SMap.insert_ne _ _ _ _ hnd]
        exact h.2.2.1 hd
    · intro hr
      show (if v.realName ≠ "" then
          m.usersRealNameInv.insert (normalizeString v.realName) v.id
        else m.usersRealNameInv) (normalizeString u.realName) = some u.id
      by_cases hvr : v.realName = ""
      · rw [if_neg (not_not_intro hvr)]
        exact h.2.2.2.1 hr
      · rw [if_pos hvr]
        have hnr : normalizeString u.realName ≠ normalizeString v.realName :=
          fun he => hv (hc.2.2.2.1 hvr hr he.symm)
        rw [SMap.insert_ne _ _ _ _ hnr]
        exact h.2.2.2.1 hr
    · intro he
      show (if v.email ≠ "" then m.usersEmailInv.insert v.email v.id
        else m.usersEmailInv) u.email = some u.id
      by_cases hve : v.email = ""
      · rw [if_neg (not_not_intro hve)]
        exact h.2.2.2.2 he
      · rw [if_pos hve]
        have hne : u.email ≠ v.email := fun heq => hv (hc.2.2.2.2 hve he heq.symm)
        rw [SMap.insert_ne _ _ _ _ hne]
        exact h.2.2.2.2 he

/-- Merging a batch of key-compatible users preserves a user's index
entries. -/
theorem mergeUsers_preserves (u : SlackUser) :
    ∀ (us : List SlackUser) (m : UserMaps),
    (∀ v ∈ us, userKeyCompatible u v) →
    userEntryIndexed m u → userEntryIndexed (mergeUsers us m) u := by
  intro us
  induction us with
  | nil => intro m _ h; exact h
  | cons v rest ih =>
      intro m hc h
      show userEntryIndexed (mergeUsers rest (insertUser m v)) u
      exact ih _ (fun w hw => hc w (List.mem_cons_of_mem v hw))
        (insertUser_preserves m u v (hc v (List.mem_cons_self v rest)) h)

/-- Merging a batch containing `u`, with no key collisions against `u`,
indexes `u` fully, whatever the starting state. -/
theorem mergeUsers_establishes (u : SlackUser) :
    ∀ (us : List SlackUser),
    u ∈ us → (∀ v ∈ us, userKeyCompatible u v) →
    ∀ (m : UserMaps), userEntryIndexed (mergeUsers us m) u := by
  intro us
  induction us with
  | nil => intro hmem; cases hmem
  | cons v rest ih =>
      intro hmem hc m
      rcases List.mem_cons.mp hmem with hu | hu
      · subst hu
        show userEntryIndexed (mergeUsers rest (insertUser m u)) u
        exact mergeUsers_preserves u rest _
          (fun w hw => hc w (List.mem_cons_of_mem u hw))
          (insertUser_establishes m u)
      · show userEntryIndexed (mergeUsers rest (insertUser m v)) u
        exact ih hu (fun w hw => hc w (List.mem_cons_of_mem v hw)) _

/-- Inserting a conversation establishes its own index entries. -/
theorem insertChannel_establishes (m : ChannelMaps) (c : Channel) :
    channelEntryIndexed (insertChannel m c) c := by
  constructor
  · show (m.channels.insert c.id c) c.id = some c
    exact SMap.insert_self _ _ _
  · show (m.channelsInv.insert c.name c.id) c.name = some c.id
    exact SMap.insert_self _ _ _

/-- Inserting a key-compatible conversation preserves another
conversation's index entries. -/
theorem insertChannel_preserves (m : ChannelMaps) (c d : Channel)
    (hc : channelKeyCompatible c d) (h : channelEntryIndexed m c) :
    channelEntryIndexed (insertChannel m d) c := by
  by_cases hd : d = c
  · subst hd; exact insertChannel_establishes m d
  · have hid : c.id ≠ d.id := fun he => hd (hc.1 he.symm)
    have hname : c.name ≠ d.name := fun he => hd (hc.2 he.symm)
    constructor
    · show (m.channels.insert d.id d) c.id = some c
      rw [SMap.insert_ne _ _ _ _ hid]; exact h.1
    · show (m.channelsInv.insert d.name d.id) c.name = some c.id
      rw [SMap.insert_ne _ _ _ _ hname]; exact h.2

/-- Merging a batch of key-compatible conversations preserves a
conversation's index entries. -/
theorem mergeChannels_preserves (c : Channel) :
    ∀ (cs : List Channel) (m : ChannelMaps),
    (∀ d ∈ cs, channelKeyCompatible c d) →
    channelEntryIndexed m c → channelEntryIndexed (mergeChannels cs m) c := by
  intro cs
  induction cs with
  | nil => intro m _ h; exact h
  | cons d rest ih =>
      intro m hc h
      show channelEntryIndexed (mergeChannels rest (insertChannel m d)) c
      exact ih _ (fun w hw => hc w (List.mem_cons_of_mem d hw))
        (insertChannel_preserves m c d (hc d (List.mem_cons_self d rest)) h)

/-- Merging a batch containing `c`, with no key collisions against `c`,
indexes `c` fully. -/
theorem mergeChannels_establishes (c : Channel) :
    ∀ (cs : List Channel),
    c ∈ cs → (∀ d ∈ cs, channelKeyCompatible c d) →
    ∀ (m : ChannelMaps), channelEntryIndexed (mergeChannels cs m) c := by
  intro cs
  induction cs with
  | nil => intro hmem; cases hmem
  | cons d rest ih =>
      intro hmem hc m
      rcases List.mem_cons.mp hmem with hcd | hcd
      · subst hcd
        show channelEntryIndexed (mergeChannels rest (insertChannel m c)) c
        exact mergeChannels_preserves c rest _
          (fun w hw => hc w (List.mem_cons_of_mem c hw))
          (insertChannel_establishes m c)
      · show channelEntryIndexed (mergeChannels rest (insertChannel m d)) c
        exact ih hcd (fun w hw => hc w (List.mem_cons_of_mem d hw)) _

/-- Inserting a user preserves the no-dangling-index invariant. -/
theorem insertUser_noDangling (m : UserMaps) (u : SlackUser)
    (h : noDanglingUsers m) : noDanglingUsers (insertUser m u) := by
  obtain ⟨h1, h2, h3, h4⟩ := h
  have husers : ∀ id, (m.users id).isSome →
      (((insertUser m u).users) id).isSome := by
    intro id hid
    exact SMap.insert_isSome _ _ _ _ hid
  have hself : (((insertUser m u).users) u.id).isSome := by
    show ((m.users.insert u.id u) u.id).isSome
    simp
  refine ⟨?_, ?_, ?_, ?_⟩
  · intro k id hk
    by_cases hku : k = u.name
    · subst hku
      have : some u.id = some id := by
        rw [← hk]; exact (SMap.insert_self _ _ _).symm
      rw [← Option.some.injEq u.id id |>.mp this]
      exact hself
    · rw [show (insertUser m u).usersInv = m.usersInv.insert u.name u.id from rfl,
        SMap.insert_ne _ _ _ _ hku] at hk
      exact husers id (h1 k id hk)
  · intro k id hk
    by_cases hd : u.displayName = ""
    · rw [show (insertUser m u).usersDisplayNameInv =
          (if u.displayName ≠ "" then
            m.usersDisplayNameInv.insert (normalizeString u.displayName) u.id
          else m.usersDisplayNameInv) from rfl,
        if_neg (not_not_intro hd)] at hk
      exact husers id (h2 k id hk)
    · rw [show (insertUser m u).usersDisplayNameInv =
          (if u.displayName ≠ "" then
            m.usersDisplayNameInv.insert (normalizeString u.displayName) u.id
          else m.usersDisplayNameInv) from rfl,
        if_pos hd] at hk
      by_cases hku : k = normalizeString u.displayName
      · subst hku
        have : some u.id = some id := by
          rw [← hk]; exact (SMap.insert_self _ _ _).symm
        rw [← Option.some.injEq u.id id |>.mp this]
        exact hself
      · rw [SMap.insert_ne _ _ _ _ hku] at hk
        exact husers id (h2 k id hk)
  · intro k id hk
    by_cases hr : u.realName = ""
    · rw [show (insertUser m u).usersRealNameInv =
          (if u.realName ≠ "" then
            m.usersRealNameInv.insert (normalizeString u.realName) u.id
          else m.usersRealNameInv) from rfl,
        if_neg (not_not_intro hr)] at hk
      exact husers id (h3 k id hk)
    · rw [show (insertUser m u).usersRealNameInv =
          (if u.realName ≠ "" then
            m.usersRealNameInv.insert (normalizeString u.realName) u.id
          else m.usersRealNameInv) from rfl,
        if_pos hr] at hk
      by_cases hku : k = normalizeString u.realName
      · subst hku
        have : some u.id = some id := by
          rw [← hk]; exact (SMap.insert_self _ _ _).symm
        rw [← Option.some.injEq u.id id |>.mp this]
        exact hself
      · rw [SMap.insert_ne _ _ _ _ hku] at hk
        exact husers id (h3 k id hk)
  · intro k id hk
    by_cases he : u.email = ""
    · rw [show (insertUser m u).usersEmailInv =
          (if u.email ≠ "" then m.usersEmailInv.insert u.email u.id
          else m.usersEmailInv) from rfl,
        if_neg (not_not_intro he)] at hk
      exact husers id (h4 k id hk)
    · rw [show (insertUser m u).usersEmailInv =
          (if u.email ≠ "" then m.usersEmailInv.insert u.email u.id
          else m.usersEmailInv) from rfl,
        if_pos he] at hk
      by_cases hku : k = u.email
      · subst hku
        have : some u.id = some id := by
          rw [← hk]; exact (SMap.insert_self _ _ _).symm
        rw [← Option.some.injEq u.id id |>.mp this]
        exact hself
      · rw [SMap.insert_ne _ _ _ _ hku] at hk
        exact husers id (h4 k id hk)

/-- Merging any batch of users preserves the no-dangling-index invariant. -/
theorem mergeUsers_noDangling :
    ∀ (us : List SlackUser) (m : UserMaps),
    noDanglingUsers m → noDanglingUsers (mergeUsers us m) := by
  intro us
  induction us with
  | nil => intro m h; exact h
  | cons u rest ih =>
      intro m h
      show noDanglingUsers (mergeUsers rest (insertUser m u))
      exact ih _ (insertUser_noDangling m u h)

/-- Inserting a conversation preserves the no-dangling-index invariant. -/
theorem insertChannel_noDangling (m : ChannelMaps) (c : Channel)
    (h : noDanglingChannels m) : noDanglingChannels (insertChannel m c) := by
  intro k id hk
  by_cases hkc : k = c.name
  · subst hkc
    have heq : some c.id = some id := by
      rw [← hk]
      exact (SMap.insert_self _ _ _).symm
    rw [← Option.some.injEq c.id id |>.mp heq]
    show ((m.channels.insert c.id c) c.id).isSome
    simp
  · rw [show (insertChannel m c).channelsInv =
        m.channelsInv.insert c.name c.id from rfl,
      SMap.insert_ne _ _ _ _ hkc] at hk
    exact SMap.insert_isSome _ _ _ _ (h k id hk)

/-- Merging any batch of conversations preserves the no-dangling-index
invariant. -/
theorem mergeChannels_noDangling :
    ∀ (cs : List Channel) (m : ChannelMaps),
    noDanglingChannels m → noDanglingChannels (mergeChannels cs m) := by
  intro cs
  induction cs with
  | nil => intro m h; exact h
  | cons c rest ih =>
      intro m h
      show noDanglingChannels (mergeChannels rest (insertChannel m c))
      exact ih _ (insertChannel_noDangling m c h)

/-- C7 counterexample: merging two distinct users that share the username
`alice` leaves the first user's ID unreachable from the username inverse
index (the second merge overwrites the key), so the reachability half of
the claim fails after this merge sequence. -/
theorem duplicateUsername_breaks_reachability :
    ¬ userIndicesReachable
      (mergeUsers [⟨"U1", "alice", "", "", ""⟩, ⟨"U2", "alice", "", "", ""⟩]
        emptyUserMaps) := by
  intro h
  have h1 := (h "U1" ⟨"U1", "alice", "", "", ""⟩ (by rfl)).1
  have h2 : (mergeUsers
      [(⟨"U1", "alice", "", "", ""⟩ : SlackUser), ⟨"U2", "alice", "", "", ""⟩]
      emptyUserMaps).usersInv "alice" = some "U2" := by rfl
  rw [h2] at h1
  exact absurd h1 (by decide)

/-- C7 (amended): after merging a batch of users (resp. conversations) into
the empty cache, provided no two distinct entries collide on an index key
(distinct IDs, usernames, non-empty normalized display names, non-empty
normalized real names, non-empty emails for users; distinct IDs and derived
names for conversations), every merged entry is reachable from each of its
applicable inverse indices; and unconditionally, after any sequence of
merges starting from a state with no dangling index entries (such as the
empty caches), no inverse index contains a key mapping to an ID absent from
the corresponding canonical map. -/
theorem index_consistency_amended :
    (∀ (us : List SlackUser),
      (∀ u ∈ us, ∀ v ∈ us, userKeyCompatible u v) →
      ∀ u ∈ us, userEntryIndexed (mergeUsers us emptyUserMaps) u) ∧
    (∀ (cs : List Channel),
      (∀ c ∈ cs, ∀ d ∈ cs, channelKeyCompatible c d) →
      ∀ c ∈ cs, channelEntryIndexed (mergeChannels cs emptyChannelMaps) c) ∧
    (∀ (m : UserMaps) (us : List SlackUser),
      noDanglingUsers m → noDanglingUsers (mergeUsers us m)) ∧
    (∀ (m : ChannelMaps) (cs : List Channel),
      noDanglingChannels m → noDanglingChannels (mergeChannels cs m)) ∧
    noDanglingUsers emptyUserMaps ∧ noDanglingChannels emptyChannelMaps := by
  refine ⟨?_, ?_, ?_, ?_, ?_, ?_⟩
  · intro us hc u hu
    exact mergeUsers_establishes u us hu (fun v hv => hc u hu v hv) _
  · intro cs hc c hcs
    exact mergeChannels_establishes c cs hcs (fun d hd => hc c hcs d hd) _
  · intro m us h
    exact mergeUsers_noDangling us m h
  · intro m cs h
    exact mergeChannels_noDangling cs m h
  · refine ⟨?_, ?_, ?_, ?_⟩ <;> intro k id hk <;> simp [SMap.empty, emptyUserMaps] at hk
  · intro k id hk
    simp [SMap.empty, emptyChannelMaps] at hk

/-- C7 witness: a singleton user batch and a singleton conversation batch
with trivially collision-free keys are fully indexed after the merge, and
the empty caches have no dangling entries. -/
theorem index_consistency_amended_witness :
    userEntryIndexed
      (mergeUsers [⟨"U1", "alice", "Alice A", "ally", "a@x.io"⟩] emptyUserMaps)
      ⟨"U1", "alice", "Alice A", "ally", "a@x.io"⟩ ∧
    channelEntryIndexed
      (mergeChannels [⟨"C1", "#general", "", "", 3, false, false, false, "", []⟩]
        emptyChannelMaps)
      ⟨"C1", "#general", "", "", 3, false, false, false, "", []⟩ ∧
    noDanglingUsers emptyUserMaps :=
  ⟨index_consistency_amended.1 [⟨"U1", "alice", "Alice A", "ally", "a@x.io"⟩]
      (by
        intro u hu v hv
        simp only [List.mem_singleton] at hu hv
        subst hu; subst hv
        exact ⟨fun _ => rfl, fun _ => rfl, fun _ _ _ => rfl,
          fun _ _ _ => rfl, fun _ _ _ => rfl⟩)
      _ (by simp),
    index_consistency_amended.2.1
      [⟨"C1", "#general", "", "", 3, false, false, false, "", []⟩]
      (by
        intro c hc d hd
        simp only [List.mem_singleton] at hc hd
        subst hc; subst hd
        exact ⟨fun _ => rfl, fun _ => rfl⟩)
      _ (by simp),
    index_consistency_amended.2.2.2.2.1⟩

/-- The completed n-page trace contains n page requests. -/
theorem pagedTrace_count_fetch (n : Nat) :
    (pagedTrace n).count FetchEv.fetch = n := by
  induction n with
  | zero => rfl
  | succ k ih => simp [pagedTrace, List.count_cons, ih]

/-- The completed n-page trace contains n permit acquisitions. -/
theorem pagedTrace_count_permit (n : Nat) :
    (pagedTrace n).count FetchEv.permit = n := by
  induction n with
  | zero => rfl
  | succ k ih => simp [pagedTrace, List.count_cons, ih]

/-- Step equation: a page request with exhausted budget ends at a cancelled
permit wait, leaving the state untouched. -/
theorem getChannelsLoop_cons_zero (usersMap : SMap SlackUser) (p : Page)
    (rest : List PageResp) (acc : List Channel) (m : ChannelMaps) :
    getChannelsLoop usersMap (PageResp.page p :: rest) 0 acc m =
      { events := [FetchEv.fetch, FetchEv.cancelled], state := m,
        cancelled := true, fetchFailed := false } := by
  simp [getChannelsLoop]

/-- Step equation: a page carrying the empty cursor ends the loop after its
permit and merge. -/
theorem getChannelsLoop_cons_done (usersMap : SMap SlackUser) (p : Page)
    (rest : List PageResp) (b : Nat) (acc : List Channel) (m : ChannelMaps)
    (h : p.nextCursor = "") :
    getChannelsLoop usersMap (PageResp.page p :: rest) (Nat.succ b) acc m =
      { events := [FetchEv.fetch, FetchEv.permit],
        state := mergeChannels (acc ++ p.convs.map (mapConv usersMap)) m,
        cancelled := false, fetchFailed := false } := by
  simp [getChannelsLoop, h]

/-- Step equation: a page carrying a continuation cursor runs its permit and
merge and continues on the rest of the server responses. -/
theorem getChannelsLoop_cons_next (usersMap : SMap SlackUser) (p : Page)
    (rest : List PageResp) (b : Nat) (acc : List Channel) (m : ChannelMaps)
    (h : p.nextCursor ≠ "") :
    getChannelsLoop usersMap (PageResp.page p :: rest) (Nat.succ b) acc m =
      { events := FetchEv.fetch :: FetchEv.permit ::
          (getChannelsLoop usersMap rest b
            (acc ++ p.convs.map (mapConv usersMap))
            (mergeChannels (acc ++ p.convs.map (mapConv usersMap)) m)).events,
        state := (getChannelsLoop usersMap rest b
            (acc ++ p.convs.map (mapConv usersMap))
            (mergeChannels (acc ++ p.convs.map (mapConv usersMap)) m)).state,
        cancelled := (getChannelsLoop usersMap rest b
            (acc ++ p.convs.map (mapConv usersMap))
            (mergeChannels (acc ++ p.convs.map (mapConv usersMap)) m)).cancelled,
        fetchFailed := (getChannelsLoop usersMap rest b
            (acc ++ p.convs.map (mapConv usersMap))
            (mergeChannels (acc ++ p.convs.map (mapConv usersMap)) m)).fetchFailed
      } := by
  simp [getChannelsLoop, h]

/-- Trace shape of the pagination loop over a well-formed page server: with
enough rate-limit budget the loop runs page request / permit pairs until the
empty cursor; with budget `b` smaller than the page count it runs `b`
complete pairs, issues one more page request, and stops at the cancelled
permit wait. -/
theorem getChannelsLoop_trace :
    ∀ (pages : List Page), wfPages pages →
    ∀ (usersMap : SMap SlackUser) (budget : Nat) (acc : List Channel)
      (m : ChannelMaps),
    (pages.length ≤ budget →
      (getChannelsLoop usersMap (pages.map PageResp.page) budget acc m).events
          = pagedTrace pages.length ∧
      (getChannelsLoop usersMap (pages.map PageResp.page) budget acc
          m).cancelled = false) ∧
    (budget < pages.length →
      (getChannelsLoop usersMap (pages.map PageResp.page) budget acc m).events
          = pagedTrace budget ++ [FetchEv.fetch, FetchEv.cancelled] ∧
      (getChannelsLoop usersMap (pages.map PageResp.page) budget acc
          m).cancelled = true) := by
  intro pages
  induction pages with
  | nil => intro hwf; exact absurd hwf (by simp [wfPages])
  | cons p rest ih =>
      intro hwf usersMap budget acc m
      cases rest with
      | nil =>
          have hcur : p.nextCursor = "" := hwf
          constructor
          · intro hb
            cases budget with
            | zero => exact absurd hb (by simp)
            | succ b =>
                rw [List.map_cons, List.map_nil,
                  getChannelsLoop_cons_done usersMap p [] b acc m hcur]
                exact ⟨rfl, rfl⟩
          · intro hb
            have hz : budget = 0 := by
              simpa [Nat.lt_succ_iff, Nat.le_zero] using hb
            subst hz
            rw [List.map_cons, List.map_nil,
              getChannelsLoop_cons_zero usersMap p [] acc m]
            exact ⟨rfl, rfl⟩
      | cons q rest2 =>
          have hcur : p.nextCursor ≠ "" := hwf.1
          have hwf2 : wfPages (q :: rest2) := hwf.2
          constructor
          · intro hb
            cases budget with
            | zero => exact absurd hb (by simp)
            | succ b =>
                have hb2 : (q :: rest2).length ≤ b := by
                  simpa [Nat.succ_le_succ_iff] using hb
                have hrec := (ih hwf2 usersMap b
                  (acc ++ p.convs.map (mapConv usersMap))
                  (mergeChannels (acc ++ p.convs.map (mapConv usersMap)) m)).1
                  hb2
                rw [List.map_cons,
                  getChannelsLoop_cons_next usersMap p _ b acc m hcur]
                constructor
                · show FetchEv.fetch :: FetchEv.permit :: _ = _
                  rw [hrec.1, List.length_cons, List.length_cons]
                  rfl
                · exact hrec.2
          · intro hb
            cases budget with
            | zero =>
                rw [List.map_cons,
                  getChannelsLoop_cons_zero usersMap p _ acc m]
                exact ⟨rfl, rfl⟩
            | succ b =>
                have hb2 : b < (q :: rest2).length := by
                  simpa [Nat.succ_lt_succ_iff] using hb
                have hrec := (ih hwf2 usersMap b
                  (acc ++ p.convs.map (mapConv usersMap))
                  (mergeChannels (acc ++ p.convs.map (mapConv usersMap)) m)).2
                  hb2
                rw [List.map_cons,
                  getChannelsLoop_cons_next usersMap p _ b acc m hcur]
                constructor
                · show FetchEv.fetch :: FetchEv.permit :: _ = _
                  rw [hrec.1]
                  rfl
                · exact hrec.2

/-- C5 counterexample: a single-page enumeration with ample budget produces
the trace page-request-then-permit — no permit is acquired before the first
(here: the only) page request, refuting the claim that a permit is acquired
before issuing each page request. -/
theorem permit_not_before_first_fetch :
    ¬ permitPrecedesEachFetch
      (getChannelsRun SMap.empty [PageResp.page ⟨[], ""⟩] 5
        emptyChannelMaps).events := by
  intro h
  have h0 := h 0 (by decide) (by rfl)
  exact absurd h0 (by decide)

/-- C5 (amended): over the standard protocol the rate-limit permit is
acquired after each page request completes (equivalently: between pages,
before each subsequent page request), so a fetch sequence over n pages
acquires exactly n permits — 3 permits for 3 pages — one following each
page; the loop terminates after the cursor comes back empty; and a
cancellation during the permit wait ends the trace at the cancelled wait,
issuing no further page request instead of draining the remaining pages. -/
theorem getChannels_rateLimit_pagination (pages : List Page)
    (usersMap : SMap SlackUser) (budget : Nat) (m : ChannelMaps)
    (hwf : wfPages pages)
    (out : LoopOut)
    (hout : out = getChannelsRun usersMap (pages.map PageResp.page) budget m) :
    (pages.length ≤ budget →
      out.events = pagedTrace pages.length ∧
      out.events.count FetchEv.fetch = pages.length ∧
      out.events.count FetchEv.permit = pages.length ∧
      out.cancelled = false) ∧
    (budget < pages.length →
      out.events = pagedTrace budget ++ [FetchEv.fetch, FetchEv.cancelled] ∧
      out.events.count FetchEv.fetch = budget + 1 ∧
      out.events.count FetchEv.permit = budget ∧
      out.events.getLast? = some FetchEv.cancelled ∧
      out.cancelled = true) := by
  subst hout
  have h := getChannelsLoop_trace pages hwf usersMap budget [] m
  simp only [getChannelsRun]
  constructor
  · intro hb
    refine ⟨(h.1 hb).1, ?_, ?_, (h.1 hb).2⟩
    · rw [(h.1 hb).1, pagedTrace_count_fetch]
    · rw [(h.1 hb).1, pagedTrace_count_permit]
  · intro hb
    refine ⟨(h.2 hb).1, ?_, ?_, ?_, (h.2 hb).2⟩
    · rw [(h.2 hb).1]
      simp [List.count_append, pagedTrace_count_fetch, List.count_cons]
    · rw [(h.2 hb).1]
      simp [List.count_append, pagedTrace_count_permit, List.count_cons]
    · rw [(h.2 hb).1]
      simp

/-- C5 witness: a concrete three-page enumeration with ample budget issues
exactly 3 page requests and 3 permits, one permit after each page, and a
budget of 1 on the same server ends in a cancelled wait after the second
page request. -/
theorem getChannels_rateLimit_pagination_witness :
    wfPages [⟨[], "c1"⟩, ⟨[], "c2"⟩, ⟨[], ""⟩] ∧
    (getChannelsRun SMap.empty
        ([⟨[], "c1"⟩, ⟨[], "c2"⟩, (⟨[], ""⟩ : Page)].map PageResp.page) 9
        emptyChannelMaps).events.count FetchEv.fetch = 3 ∧
    (getChannelsRun SMap.empty
        ([⟨[], "c1"⟩, ⟨[], "c2"⟩, (⟨[], ""⟩ : Page)].map PageResp.page) 9
        emptyChannelMaps).events.count FetchEv.permit = 3 ∧
    (getChannelsRun SMap.empty
        ([⟨[], "c1"⟩, ⟨[], "c2"⟩, (⟨[], ""⟩ : Page)].map PageResp.page) 1
        emptyChannelMaps).events.getLast? = some FetchEv.cancelled := by
  have hwf : wfPages [(⟨[], "c1"⟩ : Page), ⟨[], "c2"⟩, ⟨[], ""⟩] := by
    simp only [wfPages]
    exact ⟨by decide, by decide, trivial⟩
  refine ⟨hwf, ?_, ?_, ?_⟩
  · exact ((getChannels_rateLimit_pagination _ SMap.empty 9 emptyChannelMaps
      hwf _ rfl).1 (by decide)).2.1
  · exact ((getChannels_rateLimit_pagination _ SMap.empty 9 emptyChannelMaps
      hwf _ rfl).1 (by decide)).2.2.1
  · exact ((getChannels_rateLimit_pagination _ SMap.empty 1 emptyChannelMaps
      hwf _ rfl).2 (by decide)).2.2.2.1

/-- Merging conversations never removes an existing canonical entry. -/
theorem mergeChannels_isSome :
    ∀ (cs : List Channel) (m : ChannelMaps) (i : String),
    (m.channels i).isSome → ((mergeChannels cs m).channels i).isSome := by
  intro cs
  induction cs with
  | nil => intro m i h; exact h
  | cons c rest ih =>
      intro m i h
      show ((mergeChannels rest (insertChannel m c)).channels i).isSome
      exact ih _ i (SMap.insert_isSome _ _ _ _ h)

/-- The pagination loop never removes an existing canonical entry: whatever
was already merged stays merged, whether the loop completes, fails on a
fetch, or is cancelled. -/
theorem getChannelsLoop_monotone :
    ∀ (server : List PageResp) (usersMap : SMap SlackUser) (budget : Nat)
      (acc : List Channel) (m : ChannelMaps) (i : String),
    (m.channels i).isSome →
    ((getChannelsLoop usersMap server budget acc m).state.channels i).isSome := by
  intro server
  induction server with
  | nil => intro _ _ _ m i h; exact h
  | cons resp rest ih =>
      intro usersMap budget acc m i h
      cases resp with
      | fetchFail => exact h
      | page p =>
          cases budget with
          | zero =>
              rw [getChannelsLoop_cons_zero]
              exact h
          | succ b =>
              by_cases hcur : p.nextCursor = ""
              · rw [getChannelsLoop_cons_done usersMap p rest b acc m hcur]
                exact mergeChannels_isSome _ _ _ h
              · rw [getChannelsLoop_cons_next usersMap p rest b acc m hcur]
                exact ih usersMap b _ _ i (mergeChannels_isSome _ _ _ h)

/-- C6 counterexample: `RefreshChannels` with a malformed snapshot and a
live fetch that fails does attempt the fetch, but returns a nil error — the
fetch failure is logged inside the loop and never surfaced to the caller,
refuting the claim that for conversations a failed live fetch surfaces the
error. -/
theorem channelsFetchError_not_surfaced :
    (refreshChannelsModel SMap.empty SnapRead.malformed [PageResp.fetchFail]
      5 emptyChannelMaps).fetched = true ∧
    (refreshChannelsModel SMap.empty SnapRead.malformed [PageResp.fetchFail]
      5 emptyChannelMaps).fetchFailed = true ∧
    (refreshChannelsModel SMap.empty SnapRead.malformed [PageResp.fetchFail]
      5 emptyChannelMaps).error = none :=
  ⟨rfl, rfl, rfl⟩

/-- C6 (amended): for both users and conversations a malformed disk
snapshot logs a warning and falls through to a live fetch, never fatally.
For users a failed live fetch surfaces the error to the caller with the
directory left as it was; for conversations the refresh always reports
success — a live fetch failure is only logged, and the cache keeps
whatever had already been merged (partial results retained, not rolled
back). -/
theorem refresh_failure_semantics :
    (∀ (mU : UserMaps) (live : Except Unit (List SlackUser)),
      (refreshUsers SnapRead.malformed live mU).fetched = true ∧
      (refreshUsers SnapRead.malformed live mU).warnedMalformed = true ∧
      (∀ e, live = Except.error e →
        (refreshUsers SnapRead.malformed live mU).error = some e ∧
        (refreshUsers SnapRead.malformed live mU).state = mU) ∧
      (∀ us, live = Except.ok us →
        (refreshUsers SnapRead.malformed live mU).error = none ∧
        (refreshUsers SnapRead.malformed live mU).state = mergeUsers us mU)) ∧
    (∀ (usersMap : SMap SlackUser) (server : List PageResp) (budget : Nat)
      (mC : ChannelMaps),
      (refreshChannelsModel usersMap SnapRead.malformed server budget
        mC).fetched = true ∧
      (refreshChannelsModel usersMap SnapRead.malformed server budget
        mC).warnedMalformed = true ∧
      (refreshChannelsModel usersMap SnapRead.malformed server budget
        mC).error = none ∧
      (refreshChannelsModel usersMap SnapRead.malformed server budget
        mC).state = (getChannelsRun usersMap server budget mC).state ∧
      (∀ i, (mC.channels i).isSome →
        ((refreshChannelsModel usersMap SnapRead.malformed server budget
          mC).state.channels i).isSome)) := by
  constructor
  · intro mU live
    cases live with
    | ok us0 =>
        refine ⟨rfl, rfl, ?_, ?_⟩
        · intro e he; exact Except.noConfusion he
        · intro us hus
          injection hus with h
          subst h
          exact ⟨rfl, rfl⟩
    | error e0 =>
        refine ⟨rfl, rfl, ?_, ?_⟩
        · intro e he
          injection he with h
          subst h
          exact ⟨rfl, rfl⟩
        · intro us hus; exact Except.noConfusion hus
  · intro usersMap server budget mC
    refine ⟨rfl, rfl, rfl, rfl, ?_⟩
    intro i h
    exact getChannelsLoop_monotone server usersMap budget [] mC i h

/-- C6 witness: with a malformed users snapshot and a failing fetch the
users refresh surfaces the error and leaves the directory unchanged; with a
malformed channels snapshot, one good page and then a failing fetch, the
channels refresh reports success while retaining the merged page. -/
theorem refresh_failure_semantics_witness :
    (refreshUsers SnapRead.malformed (Except.error ()) emptyUserMaps).error
      = some () ∧
    (refreshUsers SnapRead.malformed (Except.error ()) emptyUserMaps).state
      = emptyUserMaps ∧
    (refreshChannelsModel SMap.empty SnapRead.malformed [PageResp.fetchFail]
      3 emptyChannelMaps).warnedMalformed = true ∧
    (refreshChannelsModel SMap.empty SnapRead.malformed [PageResp.fetchFail]
      3 emptyChannelMaps).error = none :=
  ⟨((refresh_failure_semantics.1 emptyUserMaps (Except.error ())).2.2.1 ()
      rfl).1,
    ((refresh_failure_semantics.1 emptyUserMaps (Except.error ())).2.2.1 ()
      rfl).2,
    (refresh_failure_semantics.2 SMap.empty [PageResp.fetchFail] 3
      emptyChannelMaps).2.1,
    (refresh_failure_semantics.2 SMap.empty [PageResp.fetchFail] 3
      emptyChannelMaps).2.2.1⟩

/-- The deduplicated list is a sublist of the trimmed parts: kept segments
appear in first-occurrence order. -/
theorem dedupParts_sublist :
    ∀ (l : List String) (seen : List String),
    (dedupParts seen l).Sublist (l.map trimSpace) := by
  intro l
  induction l with
  | nil => intro seen; simp [dedupParts]
  | cons p rest ih =>
      intro seen
      show List.Sublist (dedupParts seen (p :: rest))
        (trimSpace p :: rest.map trimSpace)
      by_cases h0 : trimSpace p = ""
      · rw [show dedupParts seen (p :: rest) = dedupParts seen rest by
          simp [dedupParts, h0]]
        exact (ih seen).cons _
      · by_cases h1 : trimSpace p ∈ seen
        · rw [show dedupParts seen (p :: rest) = dedupParts seen rest by
            simp [dedupParts, h0, h1]]
          exact (ih seen).cons _
        · rw [show dedupParts seen (p :: rest) =
              trimSpace p :: dedupParts (trimSpace p :: seen) rest by
            simp [dedupParts, h0, h1]]
          exact (ih _).cons₂ _

/-- Membership in the deduplicated list: exactly the trimmed, non-blank
segments not already seen. -/
theorem dedupParts_mem :
    ∀ (l : List String) (seen : List String) (s : String),
    s ∈ dedupParts seen l ↔
      (s ∉ seen ∧ s ∈ l.map trimSpace ∧ s ≠ "") := by
  intro l
  induction l with
  | nil => intro seen s; simp [dedupParts]
  | cons p rest ih =>
      intro seen s
      by_cases h0 : trimSpace p = ""
      · rw [show dedupParts seen (p :: rest) = dedupParts seen rest by
          simp [dedupParts, h0]]
        rw [ih]
        simp only [List.map_cons, List.mem_cons, h0]
        constructor
        · rintro ⟨hns, hmem, hne⟩
          exact ⟨hns, Or.inr hmem, hne⟩
        · rintro ⟨hns, hor, hne⟩
          rcases hor with he | hmem
          · exact absurd he hne
          · exact ⟨hns, hmem, hne⟩
      · by_cases h1 : trimSpace p ∈ seen
        · rw [show dedupParts seen (p :: rest) = dedupParts seen rest by
            simp [dedupParts, h0, h1]]
          rw [ih]
          simp only [List.map_cons, List.mem_cons]
          constructor
          · rintro ⟨hns, hmem, hne⟩
            exact ⟨hns, Or.inr hmem, hne⟩
          · rintro ⟨hns, hor, hne⟩
            rcases hor with he | hmem
            · subst he; exact absurd h1 hns
            · exact ⟨hns, hmem, hne⟩
        · rw [show dedupParts seen (p :: rest) =
              trimSpace p :: dedupParts (trimSpace p :: seen) rest by
            simp [dedupParts, h0, h1]]
          rw [List.mem_cons, ih]
          simp only [List.map_cons, List.mem_cons]
          constructor
          · rintro (he | ⟨hns, hmem, hne⟩)
            · subst he; exact ⟨h1, Or.inl rfl, h0⟩
            · exact ⟨fun hs => hns (Or.inr hs), Or.inr hmem, hne⟩
          · rintro ⟨hns, hor, hne⟩
            rcases hor with he | hmem
            · exact Or.inl he
            · by_cases hst : s = trimSpace p
              · exact Or.inl hst
              · exact Or.inr ⟨fun hs => hs.elim hst hns, hmem, hne⟩

/-- The deduplicated list contains no duplicates. -/
theorem dedupParts_nodup :
    ∀ (l : List String) (seen : List String), (dedupParts seen l).Nodup := by
  intro l
  induction l with
  | nil => intro seen; simp [dedupParts]
  | cons p rest ih =>
      intro seen
      by_cases h0 : trimSpace p = ""
      · rw [show dedupParts seen (p :: rest) = dedupParts seen rest by
          simp [dedupParts, h0]]
        exact ih seen
      · by_cases h1 : trimSpace p ∈ seen
        · rw [show dedupParts seen (p :: rest) = dedupParts seen rest by
            simp [dedupParts, h0, h1]]
          exact ih seen
        · rw [show dedupParts seen (p :: rest) =
              trimSpace p :: dedupParts (trimSpace p :: seen) rest by
            simp [dedupParts, h0, h1]]
          refine List.nodup_cons.mpr ⟨?_, ih _⟩
          intro hmem
          have := (dedupParts_mem rest (trimSpace p :: seen)
            (trimSpace p)).mp hmem
          exact this.1 (List.mem_cons_self _ _)

/-- C10: the text returned by `ExtractTextFromMessage` is the
newline-join of the deduplicated top-level segments (plain text, block
text, attachment text, file text): each distinct trimmed segment appears
at most once (no duplicates), in first-occurrence order (a sublist of the
trimmed parts), duplicates across the four sources collapse to one
occurrence, and segments that trim to empty are dropped entirely. -/
theorem extractText_dedup_spec (msg : SlackMessage) :
    extractTextFromMessage msg =
      String.intercalate "\n" (dedupParts [] (messageParts msg)) ∧
    (dedupParts [] (messageParts msg)).Nodup ∧
    (dedupParts [] (messageParts msg)).Sublist
      ((messageParts msg).map trimSpace) ∧
    (∀ s, s ∈ dedupParts [] (messageParts msg) ↔
      (s ∈ (messageParts msg).map trimSpace ∧ s ≠ "")) := by
  refine ⟨?_, dedupParts_nodup _ _, dedupParts_sublist _ _, ?_⟩
  · show deduplicateAndJoin (messageParts msg) = _
    unfold deduplicateAndJoin
    by_cases h : messageParts msg = []
    · rw [if_pos h, h]; rfl
    · rw [if_neg h]
  · intro s
    rw [dedupParts_mem]
    simp

end SlackMCP
